import Mathlib

/-!
Shallow embedding of the two source modules of this repository and proofs
checking the spec claims against them.

Embedded code:
* `pytensor/tensor/nnet/conv3d2d.py`: `get_diagonal_subtensor_view`,
  `IncDiagonalSubtensor.perform`, and the `conv3d` orchestration.
* `pytensor/sandbox/fourier.py`: `FFT.make_node` and `FFT.perform`.

Strided ndarrays are modelled by `NdArr`: a shape, a strides vector (in
elements, as in the embedding; the byte scale factor of the concrete library
is irrelevant to the addressing algebra), an element offset into a backing
store, and the backing store itself as a total function from addresses to
values.  External collaborators (the 2-D convolution primitive and the
external transform library) are parameters of the embedded functions: the
embedding raises exactly the errors raised by code of this repository, and
treats the collaborators as total black boxes.
-/

/-- Python exceptions raised by the embedded code, named by their Python
class.  The spec taxonomy files the `NotImplementedError` raised by
`get_diagonal_subtensor_view` under the name ShapeError, and the
`NotImplementedError` raises of `conv3d` (mismatched height/width border
modes, border mode "same") and of `FFT.perform` (axis outside 0/1 with
`half`) under the name UnsupportedError. -/
inductive PyErr : Type
  | notImplementedError : PyErr
  | valueError : PyErr
  | typeError : PyErr
deriving DecidableEq, Repr

/-- An n-dimensional strided array view: shape, per-axis strides (in
elements), an offset into the backing store, and the backing store. -/
structure NdArr (n : Nat) : Type where
  shape : Fin n → Nat
  strides : Fin n → Int
  offset : Int
  data : Int → Int

/-- Address in the backing store of the element at a multi-index. -/
def addrOf (t : NdArr n) (idx : Fin n → Nat) : Int :=
  t.offset + ∑ d, (idx d : Int) * t.strides d

/-- The element of the array at a multi-index. -/
def NdArr.elem (t : NdArr n) (idx : Fin n → Nat) : Int :=
  t.data (addrOf t idx)

/-- Normalized start of a Python slice `slice(start, None)` on an axis of
extent `dim`: negative starts count from the end and are clamped to 0,
nonnegative starts are clamped to `dim`. -/
def normStart (start : Int) (dim : Nat) : Nat :=
  if start < 0 then ((dim : Int) + start).toNat else min start.toNat dim

/-- Basic slicing `x[..., slice(start, None), ...]` along axis `ax`
(all other axes kept at full extent): the view keeps the strides, moves the
offset by `start` steps along `ax`, and shrinks that extent. -/
def sliceFrom (x : NdArr n) (ax : Fin n) (start : Int) : NdArr n :=
  { shape := Function.update x.shape ax (x.shape ax - normStart start (x.shape ax))
    strides := x.strides
    offset := x.offset + (normStart start (x.shape ax) : Int) * x.strides ax
    data := x.data }

/-- The construction part of `get_diagonal_subtensor_view` (conv3d2d.py
lines 28-35): slice off the first `shape[i1]-1` positions along axis `i0`,
then, unless `shape[i1] == 1`, replace the stride along `i1` by
`strides[i1] - strides[i0]`. -/
def diagonalSubtensorView (x : NdArr n) (i0 i1 : Fin n) : NdArr n :=
  let xview := sliceFrom x i0 ((x.shape i1 : Int) - 1)
  if x.shape i1 ≠ 1 then
    { xview with strides := Function.update xview.strides i1 (xview.strides i1 - xview.strides i0) }
  else
    xview

/-- `get_diagonal_subtensor_view(x, i0, i1)` (conv3d2d.py lines 13-35):
raises `NotImplementedError` when `x.shape[i0] < x.shape[i1]`, otherwise
returns the strided view. -/
def get_diagonal_subtensor_view (x : NdArr n) (i0 i1 : Fin n) : Except PyErr (NdArr n) :=
  if x.shape i0 < x.shape i1 then .error .notImplementedError
  else .ok (diagonalSubtensorView x i0 i1)

/-- Modelled from the spec (section 3, DiagonalView): the view whose offset
drops the first `shape[i1]-1` slices along axis `i0`, whose shape shrinks
axis `i0` to `shape[i0] - (shape[i1]-1)`, and whose stride along `i1`
becomes `stride[i1] - stride[i0]` unless `shape[i1] == 1`.  Used only to be
compared with `diagonalSubtensorView`, which is translated from the code. -/
def diagonalViewSpec (x : NdArr n) (i0 i1 : Fin n) : NdArr n :=
  { shape := Function.update x.shape i0 (x.shape i0 - (x.shape i1 - 1))
    strides :=
      if x.shape i1 = 1 then x.strides
      else Function.update x.strides i1 (x.strides i1 - x.strides i0)
    offset := x.offset + ((x.shape i1 : Int) - 1) * x.strides i0
    data := x.data }

/-- Row-major (C-contiguous) stride of axis `d` for a fresh array of shape
`s`: the product of the extents of all later axes. -/
def cstride (s : Fin n → Nat) (d : Fin n) : Nat :=
  ∏ e, if d < e then s e else 1

/-- A fresh zero-filled C-contiguous array of shape `s`, as produced by
`zeros_like` / `np.zeros` for the gradient accumulation. -/
def zerosLike (s : Fin n → Nat) : NdArr n :=
  { shape := s
    strides := fun d => (cstride s d : Int)
    offset := 0
    data := fun _ => 0 }

/-- Row-major linear address (relative, in elements) of a multi-index. -/
def natAddr (s : Fin n → Nat) (idx : Fin n → Nat) : Nat :=
  ∑ d, idx d * cstride s d

/-- The in-place update `xview += amt` of `IncDiagonalSubtensor.perform`
(conv3d2d.py lines 157-163), where `xview` is the diagonal view of `x`:
each element of `amt` (given as a function of the view multi-index) is
added to the backing store at the address the view assigns to that
multi-index.  When the view addresses are pairwise distinct (the case for
any array with injective addressing, in particular fresh contiguous ones)
this is exactly the element-wise in-place add of the concrete library. -/
def incDiagonalSubtensorCore (x : NdArr n) (i0 i1 : Fin n)
    (amt : (Fin n → Nat) → Int) : NdArr n :=
  let xview := diagonalSubtensorView x i0 i1
  { x with
    data := fun a => x.data a +
      ∑ p : (d : Fin n) → Fin (xview.shape d),
        if addrOf xview (fun d => (p d : Nat)) = a then amt (fun d => (p d : Nat)) else 0 }

/-- `IncDiagonalSubtensor.perform(x, i0, i1, amt)`: computes the diagonal
view of (a copy of) `x` — raising `NotImplementedError` exactly when
`get_diagonal_subtensor_view` does — and adds `amt` through it. -/
def incDiagonalSubtensorPerform (x : NdArr n) (i0 i1 : Fin n)
    (amt : (Fin n → Nat) → Int) : Except PyErr (NdArr n) :=
  if x.shape i0 < x.shape i1 then .error .notImplementedError
  else .ok (incDiagonalSubtensorCore x i0 i1 amt)

/-- The position of `x` written by the diagonal stripe at array index
`idx`: membership in the stripe selected by the diagonal view over axes
`i0`, `i1`. -/
def onStripe (s : Fin n → Nat) (i0 i1 : Fin n) (idx : Fin n → Nat) : Prop :=
  s i1 - 1 ≤ idx i0 + idx i1 ∧ idx i0 + idx i1 < s i0

instance (s : Fin n → Nat) (i0 i1 : Fin n) (idx : Fin n → Nat) :
    Decidable (onStripe s i0 i1 idx) := by
  unfold onStripe; infer_instance

/-- Border mode of `conv3d`: the three recognized string values, the
explicitly unsupported "same", and any other string. -/
inductive BM : Type
  | valid : BM
  | full : BM
  | half : BM
  | same : BM
  | other : BM
deriving DecidableEq, Repr

/-- A 4-D array value as element function plus dims. -/
structure Arr4 : Type where
  d0 : Nat
  d1 : Nat
  d2 : Nat
  d3 : Nat
  val : Nat → Nat → Nat → Nat → Int

/-- A 5-D array value as element function plus dims. -/
structure Arr5 : Type where
  d0 : Nat
  d1 : Nat
  d2 : Nat
  d3 : Nat
  d4 : Nat
  val : Nat → Nat → Nat → Nat → Nat → Int

/-- A 6-D array value as element function plus dims. -/
structure Arr6 : Type where
  d0 : Nat
  d1 : Nat
  d2 : Nat
  d3 : Nat
  d4 : Nat
  d5 : Nat
  val : Nat → Nat → Nat → Nat → Nat → Nat → Int

/-- `signals.reshape((e0, e1, e2, e3))`: row-major reshape of a 5-D array
to 4-D.  The flat position of the requested 4-D index is decomposed with
the dims of the source array, as the concrete reshape does. -/
def reshape5to4 (a : Arr5) (e0 e1 e2 e3 : Nat) : Arr4 :=
  ⟨e0, e1, e2, e3, fun i j k l =>
    let t := ((i * e1 + j) * e2 + k) * e3 + l
    a.val (t / (a.d1 * (a.d2 * (a.d3 * a.d4)))) (t / (a.d2 * (a.d3 * a.d4)) % a.d1)
      (t / (a.d3 * a.d4) % a.d2) (t / a.d4 % a.d3) (t % a.d4)⟩

/-- `out_4d.reshape((e0, e1, e2, e3, e4, e5))`: row-major reshape of a 4-D
array to 6-D. -/
def reshape4to6 (g : Arr4) (e0 e1 e2 e3 e4 e5 : Nat) : Arr6 :=
  ⟨e0, e1, e2, e3, e4, e5, fun a b c d e f =>
    let t := ((((a * e1 + b) * e2 + c) * e3 + d) * e4 + e) * e5 + f
    g.val (t / (g.d1 * (g.d2 * g.d3))) (t / (g.d2 * g.d3) % g.d1)
      (t / g.d3 % g.d2) (t % g.d3)⟩

/-- `out_tmp.reshape((e0, e1, e2, e3, e4))`: row-major reshape of a 6-D
array to 5-D (the `Tf == 1` shortcut that drops the unit filter-time
axis). -/
def reshape6to5 (x : Arr6) (e0 e1 e2 e3 e4 : Nat) : Arr5 :=
  ⟨e0, e1, e2, e3, e4, fun a b c d e =>
    let t := (((a * e1 + b) * e2 + c) * e3 + d) * e4 + e
    x.val (t / (x.d1 * (x.d2 * (x.d3 * (x.d4 * x.d5)))))
      (t / (x.d2 * (x.d3 * (x.d4 * x.d5))) % x.d1)
      (t / (x.d3 * (x.d4 * x.d5)) % x.d2)
      (t / (x.d4 * x.d5) % x.d3)
      (t / x.d5 % x.d4)
      (t % x.d5)⟩

/-- Spatial output extent of the external 2-D convolution as computed by
`conv3d` (conv3d2d.py lines 256-268): the valid/full/half formulas; border
mode "same" raises `NotImplementedError`, anything else `ValueError`. -/
def houtOf (bm : BM) (hs hf : Nat) : Except PyErr Nat :=
  match bm with
  | .valid => .ok (hs - hf + 1)
  | .full => .ok (hs + hf - 1)
  | .half => .ok (hs - hf % 2 + 1)
  | .same => .error .notImplementedError
  | .other => .error .valueError

/-- Time padding of `conv3d` (conv3d2d.py lines 280-289): valid gives 0,
full gives `Tf-1`, half gives `Tf//2`; "same" raises
`NotImplementedError`, anything else `ValueError`. -/
def tpadOf (bm : BM) (tf : Nat) : Except PyErr Nat :=
  match bm with
  | .valid => .ok 0
  | .full => .ok (tf - 1)
  | .half => .ok (tf / 2)
  | .same => .error .notImplementedError
  | .other => .error .valueError

/-- `diagonal_subtensor(x, 1, 3).sum(axis=3)` on a 6-D array: the runtime
shape check of `get_diagonal_subtensor_view` at axes (1, 3), then the
element law of the diagonal view at those axes (proved from the strided
construction in `diagonalSubtensorView_elem`), then summation over axis 3.
The extent along axis 1 shrinks by `d3 - 1` (this matches the strided view
for `d3 ≥ 1`; `conv3d` only reaches this with `d3 = Tf ≥ 2`). -/
def diagSumTime (x : Arr6) : Except PyErr Arr5 :=
  if x.d1 < x.d3 then .error .notImplementedError
  else .ok ⟨x.d0, x.d1 - (x.d3 - 1), x.d2, x.d4, x.d5, fun a k c h w =>
    ∑ j in Finset.range x.d3, x.val a (x.d3 - 1 + k - j) c j h w⟩

/-- The zero-padding of the 6-D intermediate before the diagonal reduction
(conv3d2d.py lines 294-300): a zero array with `tpad` extra positions on
both ends of axis 1, whose central slice holds `x`. -/
def padTime (x : Arr6) (tpad : Nat) : Arr6 :=
  ⟨x.d0, x.d1 + 2 * tpad, x.d2, x.d3, x.d4, x.d5, fun a t c j h w =>
    if tpad ≤ t ∧ t < x.d1 + tpad then x.val a (t - tpad) c j h w else 0⟩

/-- The reshaped 4-D signals `signals.reshape(_signals_shape_4d)` with
`_signals_shape_4d = (Ns * Ts, C, Hs, Ws)` (conv3d2d.py line 235 and 248).
The channel extent used here is `filters.d2`: the Python tuple unpacking
`Nf, Tf, C, Hf, Wf = _filters_shape_5d` (line 233) rebinds `C`, so from
that point on the channel count of `signals` is shadowed by the one of
`filters`. -/
def conv3dSignals4 (signals filters : Arr5) : Arr4 :=
  reshape5to4 signals (signals.d0 * signals.d1) filters.d2 signals.d3 signals.d4

/-- The reshaped 4-D filters `filters.reshape(_filters_shape_4d)` with
`_filters_shape_4d = (Nf * Tf, C, Hf, Wf)` (conv3d2d.py line 236 and 249). -/
def conv3dFilters4 (filters : Arr5) : Arr4 :=
  reshape5to4 filters (filters.d0 * filters.d1) filters.d2 filters.d3 filters.d4

/-- The 6-D intermediate `out_tmp = out_4d.reshape((Ns, Ts, Nf, Tf, Hout,
Wout))` (conv3d2d.py line 271), where `out_4d` is the result of the
external 2-D convolution on the reshaped arrays (line 247, with the
height border mode; the width border mode is ignored there, as the
source comment says). -/
def conv3dOutTmp (conv2d : BM → Arr4 → Arr4 → Arr4) (signals filters : Arr5)
    (bh : BM) (Hout Wout : Nat) : Arr6 :=
  reshape4to6 (conv2d bh (conv3dSignals4 signals filters) (conv3dFilters4 filters))
    signals.d0 signals.d1 filters.d0 filters.d1 Hout Wout

/-- `conv3d(signals, filters, ..., border_mode)` (conv3d2d.py lines
183-303), with the external 2-D convolution primitive passed in as a total
black box `conv2d` and the border mode already normalized to its triple
`(bt, bh, bw)` (a scalar mode is repeated three times, line 220).  The
shapes are taken from the arrays (the `signals_shape`/`filters_shape`
arguments only bypass symbolic shape inference).  Steps: reject mismatched
height/width modes (line 238); compute `Hout`/`Wout` from the height mode
(lines 256-268); reshape the 2-D convolution result to 6-D; for `Tf == 1`
drop the unit filter-time axis (line 277), otherwise compute the time
padding (lines 280-289) and reduce with the diagonal subtensor followed by
a sum over axis 3 (lines 291-301).  In Python the 2-D convolution node is
built before the spatial formulas run; it is a pure black box here, so
that order is immaterial.  No channel-count comparison occurs anywhere:
see `conv3dSignals4`. -/
def conv3d (conv2d : BM → Arr4 → Arr4 → Arr4) (signals filters : Arr5)
    (bt bh bw : BM) : Except PyErr Arr5 :=
  if bh ≠ bw then .error .notImplementedError
  else
    match houtOf bh signals.d3 filters.d3, houtOf bh signals.d4 filters.d4 with
    | .error e, _ => .error e
    | _, .error e => .error e
    | .ok Hout, .ok Wout =>
      if filters.d1 = 1 then
        .ok (reshape6to5 (conv3dOutTmp conv2d signals filters bh Hout Wout)
          signals.d0 signals.d1 filters.d0 Hout Wout)
      else
        match tpadOf bt filters.d1 with
        | .error e => .error e
        | .ok tpad =>
          if tpad = 0 then diagSumTime (conv3dOutTmp conv2d signals filters bh Hout Wout)
          else diagSumTime (padTime (conv3dOutTmp conv2d signals filters bh Hout Wout) tpad)

/-- Whether an `Except` computation produced a value (no exception). -/
def exOk : Except PyErr β → Bool
  | .ok _ => true
  | .error _ => false

/-- A 2-D array of the external transform library, with abstract entries
(the numeric content of the spectra lives in the external library; the
embedding tracks shapes and control flow). -/
structure PyMat (α : Type) : Type where
  rows : Nat
  cols : Nat
  val : Nat → Nat → α

/-- A Python value used as a slice bound: an integer, or a float (floats
are rejected as indices by the array library, whatever their value). -/
inductive PyIdx : Type
  | intIdx : Int → PyIdx
  | floatIdx : PyIdx
deriving DecidableEq, Repr

/-- Python 3 true division of two integers always yields a float. -/
def pyTrueDiv (_a _b : Int) : PyIdx := .floatIdx

/-- `m[0 : stop, :]`: keep the rows below `stop`.  A float bound raises
`TypeError` (slice indices must be integers); an integer bound is
normalized with the usual clamping. -/
def sliceRowsTo (m : PyMat α) (stop : PyIdx) : Except PyErr (PyMat α) :=
  match stop with
  | .floatIdx => .error .typeError
  | .intIdx s =>
    .ok ⟨if s < 0 then ((m.rows : Int) + s).toNat else min s.toNat m.rows, m.cols, m.val⟩

/-- `m[:, 0 : stop]`: keep the columns below `stop`; same bound semantics
as `sliceRowsTo`. -/
def sliceColsTo (m : PyMat α) (stop : PyIdx) : Except PyErr (PyMat α) :=
  match stop with
  | .floatIdx => .error .typeError
  | .intIdx s =>
    .ok ⟨m.rows, if s < 0 then ((m.cols : Int) + s).toNat else min s.toNat m.cols, m.val⟩

/-- Element dtypes of the tensor library, as far as the FFT op cares. -/
inductive DType : Type
  | float32 : DType
  | float64 : DType
  | complex64 : DType
  | complex128 : DType
deriving DecidableEq, Repr

/-- Whether the dtype name starts with "complex" (the Python test is
`dtype.startswith("complex")`). -/
def DType.isComplex : DType → Bool
  | .complex64 => true
  | .complex128 => true
  | _ => false

/-- The eager type check of `FFT.make_node` (fourier.py lines 79-80): with
`half`, a complex input dtype raises `TypeError`.  The rest of `make_node`
is symbolic-graph plumbing of the excluded host framework. -/
def fftMakeNode (half : Bool) (dtype : DType) : Except PyErr Unit :=
  if half && dtype.isComplex then .error .typeError else .ok ()

/-- `FFT.perform` (fourier.py lines 89-111).  `fftExt` is the external
transform (`numpy.fft.ifft` when `inverse`, else `numpy.fft.fft`), a black
box which may itself fail (e.g. on an axis it does not accept).  With
`half`: axis 0 and axis 1 check the parity of the transformed extent and
then slice with the bound `M / 2` — a Python 3 true division, hence a
float; any other axis raises `NotImplementedError`.  Without `half` the
transform is returned unchanged. -/
def fftPerform (half inverse : Bool)
    (fftExt : Bool → PyMat α → Nat → Int → Except PyErr (PyMat α))
    (frames : PyMat α) (n : Nat) (axis : Int) : Except PyErr (PyMat α) :=
  match fftExt inverse frames n axis with
  | .error e => .error e
  | .ok fft =>
    if half then
      if axis = 0 then
        if fft.rows % 2 ≠ 0 then .error .valueError
        else sliceRowsTo fft (pyTrueDiv (fft.rows : Int) 2)
      else if axis = 1 then
        if fft.cols % 2 ≠ 0 then .error .valueError
        else sliceColsTo fft (pyTrueDiv (fft.cols : Int) 2)
      else .error .notImplementedError
    else .ok fft

/-- A conforming stand-in for the external transform: total on every axis
(used to instantiate the black box at concrete inputs; along axis 0 the
transformed extent is the requested point count `n`). -/
def stubFft : Bool → PyMat Int → Nat → Int → Except PyErr (PyMat Int) :=
  fun _ m n axis => .ok (if axis = 0 then ⟨n, m.cols, m.val⟩ else ⟨m.rows, n, m.val⟩)

/-- A concrete 2 x 1 real frames matrix (even length along axis 0). -/
def framesEx : PyMat Int := ⟨2, 1, fun _ _ => 0⟩

/-- A concrete 3 x 1 real frames matrix (odd length along axis 0). -/
def framesOdd : PyMat Int := ⟨3, 1, fun _ _ => 0⟩

/-- What `stubFft` returns on `framesEx` with `n = 2`, axis 0. -/
def mEx : PyMat Int := ⟨2, 1, framesEx.val⟩

/-- What `stubFft` returns on `framesOdd` with `n = 3`, axis 0. -/
def mOdd : PyMat Int := ⟨3, 1, framesOdd.val⟩

/-- What `stubFft` returns on `framesEx` with `n = 2`, axis 5. -/
def mAx5 : PyMat Int := ⟨2, 2, framesEx.val⟩

/-- The 5 x 4 test array `np.arange(20).reshape(5, 4)` of
tests/tensor/nnet/test_conv3d2d.py: row-major, offset 0, backing store
holding the value of its own address. -/
def xT54 : NdArr 2 :=
  { shape := fun d => if d = 0 then 5 else 4
    strides := fun d => if d = 0 then 4 else 1
    offset := 0
    data := fun a => a }

/-- A 1 x 2 array: the row axis is shorter than the column axis. -/
def xShort : NdArr 2 :=
  { shape := fun d => if d = 0 then 1 else 2
    strides := fun d => if d = 0 then 2 else 1
    offset := 0
    data := fun a => a }

/-- A concrete in-range view multi-index for `xT54`. -/
def idx54 : Fin 2 → Nat := fun d => if d = 0 then 1 else 2

/-- A concrete in-range array multi-index for `xT54`. -/
def aidx54 : Fin 2 → Nat := fun d => if d = 0 then 3 else 1

/-- A concrete stand-in for the external 2-D convolution (a total black
box; only shapes and control flow of `conv3d` itself are at stake). -/
def conv2dW : BM → Arr4 → Arr4 → Arr4 := fun _ a _ => a

/-- Concrete 5-D signals of shape (1, 3, 1, 1, 1). -/
def sigW : Arr5 := ⟨1, 3, 1, 1, 1, fun _ _ _ _ _ => 0⟩

/-- Concrete 5-D filters of shape (1, 1, 1, 1, 1): filter time extent 1. -/
def filtW1 : Arr5 := ⟨1, 1, 1, 1, 1, fun _ _ _ _ _ => 0⟩

/-- Concrete 5-D filters of shape (1, 2, 1, 1, 1): filter time extent 2. -/
def filtW2 : Arr5 := ⟨1, 2, 1, 1, 1, fun _ _ _ _ _ => 0⟩

/-- Concrete signals with 2 channels, for the channel-mismatch inputs. -/
def sigMis : Arr5 := ⟨1, 3, 2, 1, 1, fun _ _ _ _ _ => 0⟩

/-- Concrete filters with 3 channels, mismatching `sigMis`. -/
def filtMis : Arr5 := ⟨1, 1, 3, 1, 1, fun _ _ _ _ _ => 0⟩

theorem sum_split_pair {M : Type} [AddCommMonoid M] (f : Fin n → M) (i0 i1 : Fin n)
    (h : i0 ≠ i1) :
    ∑ d, f d = f i0 + f i1 + ∑ d in (Finset.univ.erase i0).erase i1, f d := by
  have h1 : ∑ d in Finset.univ, f d = f i0 + ∑ d in Finset.univ.erase i0, f d :=
    (Finset.add_sum_erase _ f (Finset.mem_univ i0)).symm
  have h2 : ∑ d in Finset.univ.erase i0, f d
      = f i1 + ∑ d in (Finset.univ.erase i0).erase i1, f d :=
    (Finset.add_sum_erase _ f (Finset.mem_erase.mpr ⟨h.symm, Finset.mem_univ i1⟩)).symm
  rw [h1, h2, add_assoc]

theorem normStart_sub_one (s1 s0 : Nat) (h1 : 1 ≤ s1) (hle : s1 ≤ s0) :
    normStart ((s1 : Int) - 1) s0 = s1 - 1 := by
  unfold normStart
  rw [if_neg (by omega)]
  omega

theorem diagonalSubtensorView_shape (x : NdArr n) (i0 i1 : Fin n) :
    (diagonalSubtensorView x i0 i1).shape
      = Function.update x.shape i0
          (x.shape i0 - normStart ((x.shape i1 : Int) - 1) (x.shape i0)) := by
  unfold diagonalSubtensorView sliceFrom
  split <;> rfl

theorem diagonalSubtensorView_data (x : NdArr n) (i0 i1 : Fin n) :
    (diagonalSubtensorView x i0 i1).data = x.data := by
  unfold diagonalSubtensorView sliceFrom
  split <;> rfl

theorem NdArr.ext_fields {a b : NdArr n} (h1 : a.shape = b.shape)
    (h2 : a.strides = b.strides) (h3 : a.offset = b.offset) (h4 : a.data = b.data) :
    a = b := by
  cases a; cases b; simp_all

/-- Address correspondence of the strided diagonal view: the view reads
position `shape[i1] - 1 + k - j` of `x` along axis `i0`. -/
theorem diagonalSubtensorView_addr (x : NdArr n) (i0 i1 : Fin n) (h01 : i0 ≠ i1)
    (hle : x.shape i1 ≤ x.shape i0) (idx : Fin n → Nat) (hj : idx i1 < x.shape i1) :
    addrOf (diagonalSubtensorView x i0 i1) idx
      = addrOf x (Function.update idx i0 (x.shape i1 - 1 + idx i0 - idx i1)) := by
  have h1 : 1 ≤ x.shape i1 := by omega
  by_cases hs1 : x.shape i1 = 1
  · have hj0 : idx i1 = 0 := by omega
    have hupd : x.shape i1 - 1 + idx i0 - idx i1 = idx i0 := by omega
    rw [hupd, Function.update_eq_self]
    unfold diagonalSubtensorView sliceFrom addrOf
    rw [if_neg (by simpa using hs1)]
    have hz : normStart ((x.shape i1 : Int) - 1) (x.shape i0) = 0 := by
      rw [normStart_sub_one _ _ h1 hle, hs1]
    rw [hz]
    push_cast
    ring
  · unfold diagonalSubtensorView sliceFrom addrOf
    rw [if_pos hs1]
    simp only [normStart_sub_one _ _ h1 hle]
    rw [sum_split_pair
      (fun d => (idx d : Int) * Function.update x.strides i1 (x.strides i1 - x.strides i0) d)
      i0 i1 h01]
    rw [sum_split_pair
      (fun d => ((Function.update idx i0 (x.shape i1 - 1 + idx i0 - idx i1) d : Nat) : Int)
        * x.strides d) i0 i1 h01]
    have e1 : Function.update x.strides i1 (x.strides i1 - x.strides i0) i0 = x.strides i0 :=
      Function.update_noteq h01 _ _
    have e2 : Function.update x.strides i1 (x.strides i1 - x.strides i0) i1
        = x.strides i1 - x.strides i0 := Function.update_same _ _ _
    have e3 : Function.update idx i0 (x.shape i1 - 1 + idx i0 - idx i1) i0
        = x.shape i1 - 1 + idx i0 - idx i1 := Function.update_same _ _ _
    have e4 : Function.update idx i0 (x.shape i1 - 1 + idx i0 - idx i1) i1 = idx i1 :=
      Function.update_noteq h01.symm _ _
    have erest : ∑ d in (Finset.univ.erase i0).erase i1,
        (idx d : Int) * Function.update x.strides i1 (x.strides i1 - x.strides i0) d
        = ∑ d in (Finset.univ.erase i0).erase i1,
          ((Function.update idx i0 (x.shape i1 - 1 + idx i0 - idx i1) d : Nat) : Int)
            * x.strides d := by
      refine Finset.sum_congr rfl (fun d hd => ?_)
      have h' := Finset.mem_erase.mp hd
      have hd1 : d ≠ i1 := h'.1
      have hd0 : d ≠ i0 := (Finset.mem_erase.mp h'.2).1
      rw [Function.update_noteq hd1, Function.update_noteq hd0]
    rw [e1, e2, e3, e4, erest]
    have hcast1 : ((x.shape i1 - 1 : Nat) : Int) = (x.shape i1 : Int) - 1 := by omega
    have hcast2 : ((x.shape i1 - 1 + idx i0 - idx i1 : Nat) : Int)
        = (x.shape i1 : Int) - 1 + (idx i0 : Int) - (idx i1 : Int) := by omega
    rw [hcast1, hcast2]
    ring

/-- C1: for distinct in-range axes with a nonempty column axis not longer
than the row axis, `get_diagonal_subtensor_view` succeeds and the view it
builds is exactly the view described by the spec: offset dropping the
first `shape[i1]-1` slices along `i0`, axis `i0` shrunk to
`shape[i0] - (shape[i1]-1)`, stride along `i1` replaced by
`stride[i1] - stride[i0]` unless `shape[i1] == 1`, same rank, same backing
store. -/
theorem diagonal_view_matches_spec (x : NdArr n) (i0 i1 : Fin n) (h01 : i0 ≠ i1)
    (hle : x.shape i1 ≤ x.shape i0) (hpos : 1 ≤ x.shape i1) :
    get_diagonal_subtensor_view x i0 i1 = .ok (diagonalSubtensorView x i0 i1) ∧
    diagonalSubtensorView x i0 i1 = diagonalViewSpec x i0 i1 := by
  constructor
  · unfold get_diagonal_subtensor_view
    rw [if_neg (by omega)]
  · refine NdArr.ext_fields ?_ ?_ ?_ ?_
    · rw [diagonalSubtensorView_shape]
      unfold diagonalViewSpec
      rw [normStart_sub_one _ _ hpos hle]
    · unfold diagonalSubtensorView sliceFrom diagonalViewSpec
      by_cases hs1 : x.shape i1 = 1
      · rw [if_neg (by simpa using hs1), if_pos hs1]
      · rw [if_pos hs1, if_neg hs1]
    · unfold diagonalSubtensorView sliceFrom diagonalViewSpec
      have hcast : ((normStart ((x.shape i1 : Int) - 1) (x.shape i0) : Nat) : Int)
          = (x.shape i1 : Int) - 1 := by
        rw [normStart_sub_one _ _ hpos hle]; omega
      split <;> simp only [hcast]
    · unfold diagonalViewSpec
      rw [diagonalSubtensorView_data]

theorem diagonal_view_matches_spec_witness :
    (xT54.shape 1 ≤ xT54.shape 0 ∧ 1 ≤ xT54.shape 1) ∧
    (get_diagonal_subtensor_view xT54 0 1 = .ok (diagonalSubtensorView xT54 0 1) ∧
     diagonalSubtensorView xT54 0 1 = diagonalViewSpec xT54 0 1) :=
  ⟨by decide, diagonal_view_matches_spec xT54 0 1 (by decide) (by decide) (by decide)⟩

/-- C5: when the row axis is shorter than the column axis,
`get_diagonal_subtensor_view` raises (`NotImplementedError`, which the
spec taxonomy names ShapeError) and no view is produced. -/
theorem diagonal_view_short_row_axis_rejected (x : NdArr n) (i0 i1 : Fin n)
    (h : x.shape i0 < x.shape i1) :
    get_diagonal_subtensor_view x i0 i1 = .error .notImplementedError := by
  unfold get_diagonal_subtensor_view
  rw [if_pos h]

theorem diagonal_view_short_row_axis_rejected_witness :
    xShort.shape 0 < xShort.shape 1 ∧
    get_diagonal_subtensor_view xShort 0 1 = .error .notImplementedError :=
  ⟨by decide, diagonal_view_short_row_axis_rejected xShort 0 1 (by decide)⟩

/-- C10: element law of the diagonal view.  For distinct valid axes with
`shape[i0] >= shape[i1]` and an in-range multi-index of the view with
position `k` along `i0` and `j` along `i1`, the element of the view is the
element of `x` at position `shape[i1] - 1 + k - j` along `i0`, same
positions elsewhere. -/
theorem diagonal_view_elem_law (x : NdArr n) (i0 i1 : Fin n) (h01 : i0 ≠ i1)
    (hle : x.shape i1 ≤ x.shape i0)
    (idx : Fin n → Nat) (hin : ∀ d, idx d < (diagonalSubtensorView x i0 i1).shape d) :
    get_diagonal_subtensor_view x i0 i1 = .ok (diagonalSubtensorView x i0 i1) ∧
    (diagonalSubtensorView x i0 i1).elem idx
      = x.elem (Function.update idx i0 (x.shape i1 - 1 + idx i0 - idx i1)) := by
  have hsh : (diagonalSubtensorView x i0 i1).shape i1 = x.shape i1 := by
    rw [diagonalSubtensorView_shape]
    exact Function.update_noteq h01.symm _ _
  have hj : idx i1 < x.shape i1 := by
    have := hin i1
    omega
  refine ⟨?_, ?_⟩
  · unfold get_diagonal_subtensor_view
    rw [if_neg (by omega)]
  · unfold NdArr.elem
    rw [diagonalSubtensorView_data, diagonalSubtensorView_addr x i0 i1 h01 hle idx hj]

theorem diagonal_view_elem_law_witness :
    (∀ d, idx54 d < (diagonalSubtensorView xT54 0 1).shape d) ∧
    (get_diagonal_subtensor_view xT54 0 1 = .ok (diagonalSubtensorView xT54 0 1) ∧
     (diagonalSubtensorView xT54 0 1).elem idx54
       = xT54.elem (Function.update idx54 0 (xT54.shape 1 - 1 + idx54 0 - idx54 1))) :=
  ⟨by decide, diagonal_view_elem_law xT54 0 1 (by decide) (by decide) idx54 (by decide)⟩

theorem cstride_zero (s : Fin (n + 1) → Nat) :
    cstride s 0 = ∏ i : Fin n, s i.succ := by
  unfold cstride
  rw [Fin.prod_univ_succ]
  simp [Fin.succ_pos]

theorem cstride_succ (s : Fin (n + 1) → Nat) (j : Fin n) :
    cstride s j.succ = cstride (fun i => s i.succ) j := by
  unfold cstride
  rw [Fin.prod_univ_succ]
  simp [Fin.succ_lt_succ_iff]

theorem natAddr_succ (s idx : Fin (n + 1) → Nat) :
    natAddr s idx
      = idx 0 * cstride s 0 + natAddr (fun i => s i.succ) (fun i => idx i.succ) := by
  unfold natAddr
  rw [Fin.sum_univ_succ]
  congr 1
  refine Finset.sum_congr rfl (fun i _ => ?_)
  rw [cstride_succ]

theorem natAddr_lt (s idx : Fin n → Nat) (h : ∀ d, idx d < s d) :
    natAddr s idx < ∏ d, s d := by
  induction n with
  | zero => simp [natAddr]
  | succ n ih =>
    rw [natAddr_succ, Fin.prod_univ_succ, cstride_zero]
    have h0 : idx 0 < s 0 := h 0
    have hrec : natAddr (fun i => s i.succ) (fun i => idx i.succ) < ∏ i : Fin n, s i.succ := by
      simpa using ih (fun i => s i.succ) (fun i => idx i.succ) (fun i => h i.succ)
    calc idx 0 * ∏ i : Fin n, s i.succ + natAddr (fun i => s i.succ) (fun i => idx i.succ)
        < idx 0 * ∏ i : Fin n, s i.succ + ∏ i : Fin n, s i.succ := by omega
    _ = (idx 0 + 1) * ∏ i : Fin n, s i.succ := by ring
    _ ≤ s 0 * ∏ i : Fin n, s i.succ := Nat.mul_le_mul_right _ h0

/-- Row-major addressing is injective on in-range multi-indices. -/
theorem natAddr_inj (s idx idx' : Fin n → Nat) (h : ∀ d, idx d < s d)
    (h' : ∀ d, idx' d < s d) (heq : natAddr s idx = natAddr s idx') : idx = idx' := by
  induction n with
  | zero => funext d; exact d.elim0
  | succ n ih =>
    rw [natAddr_succ, natAddr_succ] at heq
    have hrb : natAddr (fun i => s i.succ) (fun i => idx i.succ) < cstride s 0 := by
      rw [cstride_zero]
      exact natAddr_lt _ _ (fun i => h i.succ)
    have hrb' : natAddr (fun i => s i.succ) (fun i => idx' i.succ) < cstride s 0 := by
      rw [cstride_zero]
      exact natAddr_lt _ _ (fun i => h' i.succ)
    have hT0 : 0 < cstride s 0 := by omega
    have hdiv : ∀ a b : Nat, b < cstride s 0 → (a * cstride s 0 + b) / cstride s 0 = a := by
      intro a b hb
      rw [Nat.mul_comm a _, Nat.mul_add_div hT0, Nat.div_eq_of_lt hb, Nat.add_zero]
    have h00 : idx 0 = idx' 0 := by
      have e1 := hdiv (idx 0) _ hrb
      have e2 := hdiv (idx' 0) _ hrb'
      rw [← e1, ← e2, heq]
    rw [h00] at heq
    have hrest := Nat.add_left_cancel heq
    have htail := ih (fun i => s i.succ) (fun i => idx i.succ) (fun i => idx' i.succ)
      (fun i => h i.succ) (fun i => h' i.succ) hrest
    funext d
    refine Fin.cases ?_ (fun i => ?_) d
    · exact h00
    · exact congrFun htail i

theorem addrOf_zerosLike (s : Fin n → Nat) (idx : Fin n → Nat) :
    addrOf (zerosLike s) idx = (natAddr s idx : Int) := by
  unfold addrOf zerosLike natAddr
  push_cast
  ring

theorem addrOf_zerosLike_inj (s : Fin n → Nat) (idx idx' : Fin n → Nat)
    (h : ∀ d, idx d < s d) (h' : ∀ d, idx' d < s d)
    (heq : addrOf (zerosLike s) idx = addrOf (zerosLike s) idx') : idx = idx' := by
  apply natAddr_inj s idx idx' h h'
  rw [addrOf_zerosLike, addrOf_zerosLike] at heq
  exact_mod_cast heq

theorem zerosLike_shape (s : Fin n → Nat) : (zerosLike s).shape = s := rfl

/-- C2: the round-trip/adjoint law between the diagonal view and the
accumulate op.  Adding `delta = diagonalView(x, i0, i1)` into a fresh
zero array of the shape of `x` through `IncDiagonalSubtensor.perform`
yields an array that agrees with `x` exactly on the diagonal stripe and
is zero everywhere else. -/
theorem inc_diagonal_roundtrip (x : NdArr n) (i0 i1 : Fin n) (h01 : i0 ≠ i1)
    (hle : x.shape i1 ≤ x.shape i0) (hpos : 1 ≤ x.shape i1)
    (idx : Fin n → Nat) (hidx : ∀ d, idx d < x.shape d) :
    incDiagonalSubtensorPerform (zerosLike x.shape) i0 i1
        (fun q => (diagonalSubtensorView x i0 i1).elem q)
      = .ok (incDiagonalSubtensorCore (zerosLike x.shape) i0 i1
          (fun q => (diagonalSubtensorView x i0 i1).elem q)) ∧
    (incDiagonalSubtensorCore (zerosLike x.shape) i0 i1
        (fun q => (diagonalSubtensorView x i0 i1).elem q)).elem idx
      = if onStripe x.shape i0 i1 idx then x.elem idx else 0 := by
  have hvs : (diagonalSubtensorView (zerosLike x.shape) i0 i1).shape
      = Function.update x.shape i0 (x.shape i0 - (x.shape i1 - 1)) := by
    rw [diagonalSubtensorView_shape, zerosLike_shape, normStart_sub_one _ _ hpos hle]
  have hsh1 : (diagonalSubtensorView (zerosLike x.shape) i0 i1).shape i1 = x.shape i1 := by
    rw [hvs]
    exact Function.update_noteq h01.symm _ _
  have hsh0 : (diagonalSubtensorView (zerosLike x.shape) i0 i1).shape i0
      = x.shape i0 - (x.shape i1 - 1) := by
    rw [hvs]
    exact Function.update_same _ _ _
  have hshd : ∀ d, d ≠ i0 →
      (diagonalSubtensorView (zerosLike x.shape) i0 i1).shape d = x.shape d := by
    intro d hd
    rw [hvs]
    exact Function.update_noteq hd _ _
  have hnp1 : ∀ p : (d : Fin n) → Fin ((diagonalSubtensorView (zerosLike x.shape) i0 i1).shape d),
      (p i1 : Nat) < x.shape i1 := by
    intro p
    have h := (p i1).isLt
    omega
  have hnp0 : ∀ p : (d : Fin n) → Fin ((diagonalSubtensorView (zerosLike x.shape) i0 i1).shape d),
      (p i0 : Nat) < x.shape i0 - (x.shape i1 - 1) := by
    intro p
    have h := (p i0).isLt
    omega
  have hnpd : ∀ p : (d : Fin n) → Fin ((diagonalSubtensorView (zerosLike x.shape) i0 i1).shape d),
      ∀ d, d ≠ i0 → (p d : Nat) < x.shape d := by
    intro p d hd
    have h := (p d).isLt
    have h2 := hshd d hd
    omega
  have haddr : ∀ p : (d : Fin n) → Fin ((diagonalSubtensorView (zerosLike x.shape) i0 i1).shape d),
      addrOf (diagonalSubtensorView (zerosLike x.shape) i0 i1) (fun d => ((p d : Nat)))
        = addrOf (zerosLike x.shape)
          (Function.update (fun d => ((p d : Nat))) i0
            (x.shape i1 - 1 + (p i0 : Nat) - (p i1 : Nat))) := by
    intro p
    exact diagonalSubtensorView_addr (zerosLike x.shape) i0 i1 h01 hle
      (fun d => ((p d : Nat))) (hnp1 p)
  have hsrclt : ∀ p : (d : Fin n) → Fin ((diagonalSubtensorView (zerosLike x.shape) i0 i1).shape d),
      ∀ d, Function.update (fun e => ((p e : Nat))) i0
          (x.shape i1 - 1 + (p i0 : Nat) - (p i1 : Nat)) d < x.shape d := by
    intro p d
    by_cases hd : d = i0
    · rw [hd, Function.update_same]
      have h0 := hnp0 p
      have h1 := hnp1 p
      omega
    · rw [Function.update_noteq hd]
      exact hnpd p d hd
  have hiff : ∀ p : (d : Fin n) → Fin ((diagonalSubtensorView (zerosLike x.shape) i0 i1).shape d),
      (addrOf (diagonalSubtensorView (zerosLike x.shape) i0 i1) (fun d => ((p d : Nat)))
          = addrOf (zerosLike x.shape) idx)
        ↔ (Function.update (fun e => ((p e : Nat))) i0
            (x.shape i1 - 1 + (p i0 : Nat) - (p i1 : Nat)) = idx) := by
    intro p
    constructor
    · intro h
      rw [haddr p] at h
      exact addrOf_zerosLike_inj x.shape _ idx (hsrclt p) hidx h
    · intro h
      rw [haddr p, h]
  refine ⟨?_, ?_⟩
  · unfold incDiagonalSubtensorPerform
    rw [if_neg (show ¬((zerosLike x.shape).shape i0 < (zerosLike x.shape).shape i1) by
      rw [zerosLike_shape]; omega)]
  · have hstep : (incDiagonalSubtensorCore (zerosLike x.shape) i0 i1
          (fun q => (diagonalSubtensorView x i0 i1).elem q)).elem idx
        = 0 + ∑ p : (d : Fin n) → Fin ((diagonalSubtensorView (zerosLike x.shape) i0 i1).shape d),
          (if Function.update (fun e => ((p e : Nat))) i0
              (x.shape i1 - 1 + (p i0 : Nat) - (p i1 : Nat)) = idx
           then (diagonalSubtensorView x i0 i1).elem (fun d => ((p d : Nat))) else 0) := by
      refine Eq.trans (rfl :
          (incDiagonalSubtensorCore (zerosLike x.shape) i0 i1
            (fun q => (diagonalSubtensorView x i0 i1).elem q)).elem idx
        = 0 + ∑ p : (d : Fin n) → Fin ((diagonalSubtensorView (zerosLike x.shape) i0 i1).shape d),
          (if addrOf (diagonalSubtensorView (zerosLike x.shape) i0 i1) (fun d => ((p d : Nat)))
              = addrOf (zerosLike x.shape) idx
           then (diagonalSubtensorView x i0 i1).elem (fun d => ((p d : Nat))) else 0)) ?_
      exact congrArg (HAdd.hAdd (0 : Int))
        (Finset.sum_congr rfl (fun p _ => if_congr (hiff p) rfl rfl))
    rw [hstep]
    clear hstep
    by_cases hst : onStripe x.shape i0 i1 idx
    · have hsAB : x.shape i1 - 1 ≤ idx i0 + idx i1 ∧ idx i0 + idx i1 < x.shape i0 := hst
      obtain ⟨hsA, hsB⟩ := hsAB
      rw [if_pos hst]
      obtain ⟨p0, hp0⟩ : ∃ p0 : (d : Fin n) →
            Fin ((diagonalSubtensorView (zerosLike x.shape) i0 i1).shape d),
          ∀ d, (p0 d : Nat)
            = if d = i0 then idx i0 + idx i1 - (x.shape i1 - 1) else idx d := by
        refine ⟨fun d => ⟨if d = i0 then idx i0 + idx i1 - (x.shape i1 - 1) else idx d, ?_⟩,
          fun d => rfl⟩
        rw [hvs]
        by_cases hd : d = i0
        · rw [hd, if_pos rfl, Function.update_same]
          omega
        · rw [if_neg hd, Function.update_noteq hd]
          exact hidx d
      have he0 : (p0 i0 : Nat) = idx i0 + idx i1 - (x.shape i1 - 1) := by
        rw [hp0 i0, if_pos rfl]
      have he1 : (p0 i1 : Nat) = idx i1 := by
        rw [hp0 i1, if_neg h01.symm]
      have hF0 : Function.update (fun e => ((p0 e : Nat))) i0
          (x.shape i1 - 1 + (p0 i0 : Nat) - (p0 i1 : Nat)) = idx := by
        funext d
        by_cases hd : d = i0
        · rw [hd, Function.update_same, he0, he1]
          omega
        · rw [Function.update_noteq hd]
          show (p0 d : Nat) = idx d
          rw [hp0 d, if_neg hd]
      have hzero : ∀ p ∈ Finset.univ, p ≠ p0 →
          (if Function.update (fun e => ((p e : Nat))) i0
              (x.shape i1 - 1 + (p i0 : Nat) - (p i1 : Nat)) = idx
           then (diagonalSubtensorView x i0 i1).elem (fun d => ((p d : Nat))) else 0) = 0 := by
        intro p _ hne
        rw [if_neg]
        intro hFp
        apply hne
        have hd1 : ∀ d, d ≠ i0 → (p d : Nat) = idx d := by
          intro d hd
          have h := congrFun hFp d
          rwa [Function.update_noteq hd] at h
        have hpi0 : x.shape i1 - 1 + (p i0 : Nat) - (p i1 : Nat) = idx i0 := by
          have h := congrFun hFp i0
          rwa [Function.update_same] at h
        have hpi1 : (p i1 : Nat) = idx i1 := hd1 i1 h01.symm
        funext d
        apply Fin.ext
        rw [hp0 d]
        by_cases hd : d = i0
        · rw [hd, if_pos rfl]
          have h1 := hnp1 p
          omega
        · rw [if_neg hd]
          exact hd1 d hd
      rw [Finset.sum_eq_single p0 hzero (fun h => absurd (Finset.mem_univ p0) h), if_pos hF0,
        zero_add]
      show (diagonalSubtensorView x i0 i1).elem (fun d => ((p0 d : Nat))) = x.elem idx
      unfold NdArr.elem
      rw [diagonalSubtensorView_data,
        diagonalSubtensorView_addr x i0 i1 h01 hle (fun d => ((p0 d : Nat)))
          (show ((p0 i1 : Nat)) < x.shape i1 by rw [he1]; exact hidx i1)]
      show x.data (addrOf x (Function.update (fun e => ((p0 e : Nat))) i0
        (x.shape i1 - 1 + (p0 i0 : Nat) - (p0 i1 : Nat)))) = x.data (addrOf x idx)
      rw [hF0]
    · rw [if_neg hst]
      have hz : ∀ p ∈ (Finset.univ :
            Finset ((d : Fin n) → Fin ((diagonalSubtensorView (zerosLike x.shape) i0 i1).shape d))),
          (if Function.update (fun e => ((p e : Nat))) i0
              (x.shape i1 - 1 + (p i0 : Nat) - (p i1 : Nat)) = idx
           then (diagonalSubtensorView x i0 i1).elem (fun d => ((p d : Nat))) else 0) = 0 := by
        intro p _
        rw [if_neg]
        intro hFp
        apply hst
        have hpi0 : x.shape i1 - 1 + (p i0 : Nat) - (p i1 : Nat) = idx i0 := by
          have h := congrFun hFp i0
          rwa [Function.update_same] at h
        have hpi1 : (p i1 : Nat) = idx i1 := by
          have h := congrFun hFp i1
          rwa [Function.update_noteq h01.symm] at h
        have h1 := hnp1 p
        have h0 := hnp0 p
        show x.shape i1 - 1 ≤ idx i0 + idx i1 ∧ idx i0 + idx i1 < x.shape i0
        omega
      rw [Finset.sum_eq_zero hz, add_zero]

theorem inc_diagonal_roundtrip_witness :
    ((xT54.shape 1 ≤ xT54.shape 0 ∧ 1 ≤ xT54.shape 1) ∧ (∀ d, aidx54 d < xT54.shape d)) ∧
    (incDiagonalSubtensorPerform (zerosLike xT54.shape) 0 1
        (fun q => (diagonalSubtensorView xT54 0 1).elem q)
      = .ok (incDiagonalSubtensorCore (zerosLike xT54.shape) 0 1
          (fun q => (diagonalSubtensorView xT54 0 1).elem q)) ∧
     (incDiagonalSubtensorCore (zerosLike xT54.shape) 0 1
        (fun q => (diagonalSubtensorView xT54 0 1).elem q)).elem aidx54
      = if onStripe xT54.shape 0 1 aidx54 then xT54.elem aidx54 else 0) :=
  ⟨⟨⟨by decide, by decide⟩, by decide⟩,
    inc_diagonal_roundtrip xT54 0 1 (by decide) (by decide) (by decide) aidx54 (by decide)⟩

theorem conv3d_mismatch (conv2d : BM → Arr4 → Arr4 → Arr4) (signals filters : Arr5)
    (bt bh bw : BM) (h : bh ≠ bw) :
    conv3d conv2d signals filters bt bh bw = .error .notImplementedError := by
  unfold conv3d
  rw [if_pos h]

theorem conv3d_eq_of_ok (conv2d : BM → Arr4 → Arr4 → Arr4) (signals filters : Arr5)
    (bt bh : BM) (Hout Wout : Nat)
    (hH : houtOf bh signals.d3 filters.d3 = .ok Hout)
    (hW : houtOf bh signals.d4 filters.d4 = .ok Wout) :
    conv3d conv2d signals filters bt bh bh
      = if filters.d1 = 1 then
          .ok (reshape6to5 (conv3dOutTmp conv2d signals filters bh Hout Wout)
            signals.d0 signals.d1 filters.d0 Hout Wout)
        else
          match tpadOf bt filters.d1 with
          | .error e => .error e
          | .ok tpad =>
            if tpad = 0 then diagSumTime (conv3dOutTmp conv2d signals filters bh Hout Wout)
            else diagSumTime (padTime (conv3dOutTmp conv2d signals filters bh Hout Wout) tpad) := by
  unfold conv3d
  rw [if_neg (show ¬(bh ≠ bh) from fun h => h rfl), hH, hW]

theorem conv3d_eq_of_hout_error (conv2d : BM → Arr4 → Arr4 → Arr4) (signals filters : Arr5)
    (bt bh : BM) (e : PyErr)
    (hH : houtOf bh signals.d3 filters.d3 = .error e) :
    conv3d conv2d signals filters bt bh bh = .error e := by
  unfold conv3d
  rw [if_neg (show ¬(bh ≠ bh) from fun h => h rfl), hH]
  cases houtOf bh signals.d4 filters.d4 <;> rfl

theorem pair_lt (u U v V : Nat) (hu : u < U) (hv : v < V) : u * V + v < U * V := by
  calc u * V + v < u * V + V := by omega
  _ = (u + 1) * V := by ring
  _ ≤ U * V := Nat.mul_le_mul_right V (by omega)

theorem flat_mod (q m r : Nat) (hr : r < m) : (q * m + r) % m = r := by
  rw [Nat.mul_comm q m, Nat.mul_add_mod]
  exact Nat.mod_eq_of_lt hr

theorem flat_div (q m r : Nat) (hr : r < m) : (q * m + r) / m = q := by
  have hm : 0 < m := by omega
  rw [Nat.mul_comm q m, Nat.mul_add_div hm, Nat.div_eq_of_lt hr, Nat.add_zero]

/-- Row-major block law of the 4-D to 6-D reshape used by `conv3d`: when
the 4-D array has dims `(_, Nf*Tf, Hout, Wout)`, the element of the 6-D
reshape at `(a, b, c, d, e, f)` is the 4-D element at row `a*Ts + b`,
column `c*Tf + d`, same spatial position. -/
theorem reshape4to6_block (g : Arr4) (Ns Ts Nf Tf Hout Wout : Nat)
    (hg1 : g.d1 = Nf * Tf) (hg2 : g.d2 = Hout) (hg3 : g.d3 = Wout)
    (a b c d e f : Nat) (hc : c < Nf) (hd : d < Tf) (he : e < Hout) (hf : f < Wout) :
    (reshape4to6 g Ns Ts Nf Tf Hout Wout).val a b c d e f
      = g.val (a * Ts + b) (c * Tf + d) e f := by
  have hJ : c * Tf + d < Nf * Tf := pair_lt c Nf d Tf hc hd
  have hEF : e * Wout + f < Hout * Wout := pair_lt e Hout f Wout he hf
  have hrem : (c * Tf + d) * (Hout * Wout) + (e * Wout + f) < (Nf * Tf) * (Hout * Wout) :=
    pair_lt _ _ _ _ hJ hEF
  show g.val
      ((((((a * Ts + b) * Nf + c) * Tf + d) * Hout + e) * Wout + f) / (g.d1 * (g.d2 * g.d3)))
      ((((((a * Ts + b) * Nf + c) * Tf + d) * Hout + e) * Wout + f) / (g.d2 * g.d3) % g.d1)
      ((((((a * Ts + b) * Nf + c) * Tf + d) * Hout + e) * Wout + f) / g.d3 % g.d2)
      ((((((a * Ts + b) * Nf + c) * Tf + d) * Hout + e) * Wout + f) % g.d3)
    = g.val (a * Ts + b) (c * Tf + d) e f
  rw [hg1, hg2, hg3]
  have c1 : ((((a * Ts + b) * Nf + c) * Tf + d) * Hout + e) * Wout + f
      = (a * Ts + b) * ((Nf * Tf) * (Hout * Wout))
        + ((c * Tf + d) * (Hout * Wout) + (e * Wout + f)) := by ring
  have c2 : ((((a * Ts + b) * Nf + c) * Tf + d) * Hout + e) * Wout + f
      = ((a * Ts + b) * (Nf * Tf) + (c * Tf + d)) * (Hout * Wout) + (e * Wout + f) := by ring
  have c3 : ((((a * Ts + b) * Nf + c) * Tf + d) * Hout + e) * Wout + f
      = (((a * Ts + b) * (Nf * Tf) + (c * Tf + d)) * Hout + e) * Wout + f := by ring
  have e1 : (((((a * Ts + b) * Nf + c) * Tf + d) * Hout + e) * Wout + f)
      / ((Nf * Tf) * (Hout * Wout)) = a * Ts + b := by
    rw [c1]
    exact flat_div _ _ _ hrem
  have e2 : (((((a * Ts + b) * Nf + c) * Tf + d) * Hout + e) * Wout + f)
      / (Hout * Wout) % (Nf * Tf) = c * Tf + d := by
    rw [c2, flat_div _ _ _ hEF]
    exact flat_mod _ _ _ hJ
  have e3 : (((((a * Ts + b) * Nf + c) * Tf + d) * Hout + e) * Wout + f)
      / Wout % Hout = e := by
    rw [c3, flat_div _ _ _ hf]
    exact flat_mod _ _ _ he
  have e4 : (((((a * Ts + b) * Nf + c) * Tf + d) * Hout + e) * Wout + f) % Wout = f :=
    flat_mod _ _ _ hf
  rw [e1, e2, e3, e4]

/-- C4: the spatial output extents are computed from the height/width
border policy by the valid/full/half formulas (same function `houtOf` for
height and width, so the width formulas are symmetric), and the 4-D result
of the external 2-D convolution is reshaped to the 6-D shape
`(Ns, Ts, Nf, Tf, Hout, Wout)` in row-major order, which on in-range
indices is the block-index law below.  `conv3d` wires these together in
`conv3dOutTmp`. -/
theorem conv3d_spatial_extents (Hs Hf : Nat) (g : Arr4) (Ns Ts Nf Tf Hout Wout : Nat)
    (hg1 : g.d1 = Nf * Tf) (hg2 : g.d2 = Hout) (hg3 : g.d3 = Wout)
    (a b c d e f : Nat) (hc : c < Nf) (hd : d < Tf) (he : e < Hout) (hf : f < Wout) :
    (houtOf BM.valid Hs Hf = .ok (Hs - Hf + 1)
      ∧ houtOf BM.full Hs Hf = .ok (Hs + Hf - 1)
      ∧ houtOf BM.half Hs Hf = .ok (Hs - Hf % 2 + 1)
      ∧ houtOf BM.same Hs Hf = .error .notImplementedError) ∧
    (reshape4to6 g Ns Ts Nf Tf Hout Wout).val a b c d e f
      = g.val (a * Ts + b) (c * Tf + d) e f :=
  ⟨⟨rfl, rfl, rfl, rfl⟩, reshape4to6_block g Ns Ts Nf Tf Hout Wout hg1 hg2 hg3
    a b c d e f hc hd he hf⟩

theorem conv3d_spatial_extents_witness :
    ((2 : Nat) < 3 ∧ (1 : Nat) < 2 ∧ (4 : Nat) < 5 ∧ (6 : Nat) < 7) ∧
    ((houtOf BM.valid 9 4 = .ok (9 - 4 + 1)
      ∧ houtOf BM.full 9 4 = .ok (9 + 4 - 1)
      ∧ houtOf BM.half 9 4 = .ok (9 - 4 % 2 + 1)
      ∧ houtOf BM.same 9 4 = .error .notImplementedError) ∧
     (reshape4to6 (Arr4.mk 10 6 5 7 (fun i j k l => (i + 2 * j + 3 * k + 5 * l : Int)))
        10 1 3 2 5 7).val 8 0 2 1 4 6
      = (Arr4.mk 10 6 5 7 (fun i j k l => (i + 2 * j + 3 * k + 5 * l : Int))).val
          (8 * 1 + 0) (2 * 2 + 1) 4 6) :=
  ⟨⟨by decide, by decide, by decide, by decide⟩,
    conv3d_spatial_extents 9 4 (Arr4.mk 10 6 5 7 (fun i j k l => (i + 2 * j + 3 * k + 5 * l : Int)))
      10 1 3 2 5 7 rfl rfl rfl 8 0 2 1 4 6 (by decide) (by decide) (by decide) (by decide)⟩

/-- C3: temporal behavior of `conv3d`.  The time paddings are valid: 0,
full: `Tf-1`, half: `Tf/2` (integer division).  With `Tf == 1` the output
is the 6-D intermediate with its unit filter-time axis dropped (time
extent `Ts`).  With `Tf >= 2` the output is the diagonal-subtensor
reduction (extract over axes 1 and 3, sum over axis 3) of the 6-D
intermediate, zero-padded in time when `Tpad > 0`, and on feasible inputs
it is a 5-D tensor of shape `(Ns, Ts + 2*Tpad - Tf + 1, Nf, Hout, Wout)`;
with `Tpad = 0` that time extent is `Ts - Tf + 1`. -/
theorem conv3d_time_reduction (conv2d : BM → Arr4 → Arr4 → Arr4) (signals filters : Arr5)
    (bt bh bw : BM) (hhw : bh = bw) (Hout Wout : Nat)
    (hH : houtOf bh signals.d3 filters.d3 = .ok Hout)
    (hW : houtOf bh signals.d4 filters.d4 = .ok Wout) :
    (tpadOf BM.valid filters.d1 = .ok 0
      ∧ tpadOf BM.full filters.d1 = .ok (filters.d1 - 1)
      ∧ tpadOf BM.half filters.d1 = .ok (filters.d1 / 2)) ∧
    (filters.d1 = 1 →
      conv3d conv2d signals filters bt bh bw
        = .ok (reshape6to5 (conv3dOutTmp conv2d signals filters bh Hout Wout)
            signals.d0 signals.d1 filters.d0 Hout Wout)) ∧
    (∀ tpad, 2 ≤ filters.d1 → tpadOf bt filters.d1 = .ok tpad →
      (conv3d conv2d signals filters bt bh bw
        = diagSumTime (if tpad = 0 then conv3dOutTmp conv2d signals filters bh Hout Wout
            else padTime (conv3dOutTmp conv2d signals filters bh Hout Wout) tpad))
      ∧ (filters.d1 ≤ signals.d1 + 2 * tpad →
          ∃ out : Arr5, conv3d conv2d signals filters bt bh bw = .ok out
            ∧ out.d0 = signals.d0
            ∧ out.d1 = signals.d1 + 2 * tpad - filters.d1 + 1
            ∧ out.d2 = filters.d0 ∧ out.d3 = Hout ∧ out.d4 = Wout)) := by
  subst hhw
  have hred := conv3d_eq_of_ok conv2d signals filters bt bh Hout Wout hH hW
  refine ⟨⟨rfl, rfl, rfl⟩, ?_, ?_⟩
  · intro h1
    rw [hred, if_pos h1]
  · intro tpad h2 htp
    have hne : filters.d1 ≠ 1 := by omega
    have hred2 : conv3d conv2d signals filters bt bh bh
        = if tpad = 0 then diagSumTime (conv3dOutTmp conv2d signals filters bh Hout Wout)
          else diagSumTime (padTime (conv3dOutTmp conv2d signals filters bh Hout Wout) tpad) := by
      rw [hred, if_neg hne, htp]
    constructor
    · rw [hred2]
      by_cases h0 : tpad = 0
      · rw [if_pos h0, if_pos h0]
      · rw [if_neg h0, if_neg h0]
    · intro hple
      by_cases h0 : tpad = 0
      · subst h0
        rw [if_pos rfl] at hred2
        refine ⟨⟨signals.d0, signals.d1 - (filters.d1 - 1), filters.d0, Hout, Wout,
            fun a k c h w => ∑ j in Finset.range filters.d1,
              (conv3dOutTmp conv2d signals filters bh Hout Wout).val a
                (filters.d1 - 1 + k - j) c j h w⟩, ?_, rfl, ?_, rfl, rfl, rfl⟩
        · rw [hred2]
          unfold diagSumTime
          rw [if_neg (show ¬((conv3dOutTmp conv2d signals filters bh Hout Wout).d1
              < (conv3dOutTmp conv2d signals filters bh Hout Wout).d3) from by
            show ¬(signals.d1 < filters.d1)
            omega)]
          rfl
        · show signals.d1 - (filters.d1 - 1) = signals.d1 + 2 * 0 - filters.d1 + 1
          omega
      · rw [if_neg h0] at hred2
        refine ⟨⟨signals.d0, signals.d1 + 2 * tpad - (filters.d1 - 1), filters.d0, Hout, Wout,
            fun a k c h w => ∑ j in Finset.range filters.d1,
              (padTime (conv3dOutTmp conv2d signals filters bh Hout Wout) tpad).val a
                (filters.d1 - 1 + k - j) c j h w⟩, ?_, rfl, ?_, rfl, rfl, rfl⟩
        · rw [hred2]
          unfold diagSumTime
          rw [if_neg (show ¬((padTime (conv3dOutTmp conv2d signals filters bh Hout Wout) tpad).d1
              < (padTime (conv3dOutTmp conv2d signals filters bh Hout Wout) tpad).d3) from by
            show ¬(signals.d1 + 2 * tpad < filters.d1)
            omega)]
          rfl
        · show signals.d1 + 2 * tpad - (filters.d1 - 1) = signals.d1 + 2 * tpad - filters.d1 + 1
          omega

theorem conv3d_time_reduction_witness :
    filtW1.d1 = 1 ∧
    conv3d conv2dW sigW filtW1 BM.valid BM.valid BM.valid
      = .ok (reshape6to5 (conv3dOutTmp conv2dW sigW filtW1 BM.valid 1 1)
          sigW.d0 sigW.d1 filtW1.d0 1 1) :=
  ⟨rfl, (conv3d_time_reduction conv2dW sigW filtW1 BM.valid BM.valid BM.valid rfl 1 1
    rfl rfl).2.1 rfl⟩

/-- C6 (amended): `conv3d` rejects mismatched height/width border modes,
and rejects the "same" policy on the height/width axes; the "same" policy
on the time axis is rejected only when it is consulted, i.e. when
`Tf >= 2` — with `Tf == 1` the time policy is never examined and an
output is produced (see the counterexample). -/
theorem conv3d_border_mode_errors (conv2d : BM → Arr4 → Arr4 → Arr4)
    (signals filters : Arr5) (bt bh bw : BM) :
    (bh ≠ bw → conv3d conv2d signals filters bt bh bw = .error .notImplementedError) ∧
    (bh = BM.same → bw = BM.same →
      conv3d conv2d signals filters bt bh bw = .error .notImplementedError) ∧
    (∀ Hout Wout, bt = BM.same → 2 ≤ filters.d1 →
      houtOf bh signals.d3 filters.d3 = .ok Hout →
      houtOf bh signals.d4 filters.d4 = .ok Wout →
      bh = bw →
      conv3d conv2d signals filters bt bh bw = .error .notImplementedError) := by
  refine ⟨conv3d_mismatch conv2d signals filters bt bh bw, ?_, ?_⟩
  · intro h1 h2
    subst h1
    subst h2
    exact conv3d_eq_of_hout_error conv2d signals filters bt BM.same _ rfl
  · intro Hout Wout hbt h2 hH hW hhw
    subst hhw
    subst hbt
    rw [conv3d_eq_of_ok conv2d signals filters BM.same bh Hout Wout hH hW,
      if_neg (show ¬(filters.d1 = 1) by omega)]
    rfl

theorem conv3d_border_mode_errors_witness :
    (BM.valid ≠ BM.full) ∧
    conv3d conv2dW sigW filtW1 BM.valid BM.valid BM.full = .error .notImplementedError ∧
    conv3d conv2dW sigW filtW2 BM.same BM.valid BM.valid = .error .notImplementedError :=
  ⟨by decide,
    (conv3d_border_mode_errors conv2dW sigW filtW1 BM.valid BM.valid BM.full).1 (by decide),
    (conv3d_border_mode_errors conv2dW sigW filtW2 BM.same BM.valid BM.valid).2.2 1 1 rfl
      (by decide) rfl rfl rfl⟩

/-- C6 counterexample: with `Tf == 1` the "same" time policy is never
examined, so `conv3d` with border modes ("same", "valid", "valid")
produces an output instead of raising. -/
theorem conv3d_same_time_counterexample :
    exOk (conv3d conv2dW sigW filtW1 BM.same BM.valid BM.valid) = true := rfl

/-- C7 (amended): `conv3d` performs no channel-count comparison: the
Python tuple unpacking rebinds `C` to the filters channel count (see
`conv3dSignals4`), and on otherwise feasible inputs an output is produced
even when the signal and filter channel counts differ; any mismatch
failure is left to the external 2-D convolution at run time. -/
theorem conv3d_channel_mismatch_no_error (conv2d : BM → Arr4 → Arr4 → Arr4)
    (signals filters : Arr5) (bt bh bw : BM)
    (hmis : signals.d2 ≠ filters.d2) (hhw : bh = bw)
    (hbh : bh = BM.valid ∨ bh = BM.full ∨ bh = BM.half)
    (hbt : bt = BM.valid ∨ bt = BM.full ∨ bt = BM.half)
    (hTfTs : filters.d1 ≤ signals.d1) (hTs : 1 ≤ signals.d1) :
    exOk (conv3d conv2d signals filters bt bh bw) = true := by
  subst hhw
  obtain ⟨Hout, hH⟩ : ∃ h, houtOf bh signals.d3 filters.d3 = .ok h := by
    rcases hbh with h | h | h <;> subst h <;> exact ⟨_, rfl⟩
  obtain ⟨Wout, hW⟩ : ∃ w, houtOf bh signals.d4 filters.d4 = .ok w := by
    rcases hbh with h | h | h <;> subst h <;> exact ⟨_, rfl⟩
  rw [conv3d_eq_of_ok conv2d signals filters bt bh Hout Wout hH hW]
  by_cases h1 : filters.d1 = 1
  · rw [if_pos h1]
    rfl
  · rw [if_neg h1]
    obtain ⟨tpad, htp, hple⟩ : ∃ tp, tpadOf bt filters.d1 = .ok tp
        ∧ filters.d1 ≤ signals.d1 + 2 * tp := by
      rcases hbt with h | h | h <;> subst h
      · exact ⟨0, rfl, by omega⟩
      · exact ⟨filters.d1 - 1, rfl, by omega⟩
      · exact ⟨filters.d1 / 2, rfl, by omega⟩
    rw [htp]
    show exOk (if tpad = 0
        then diagSumTime (conv3dOutTmp conv2d signals filters bh Hout Wout)
        else diagSumTime (padTime (conv3dOutTmp conv2d signals filters bh Hout Wout) tpad))
      = true
    by_cases h0 : tpad = 0
    · subst h0
      rw [if_pos rfl]
      unfold diagSumTime
      rw [if_neg (show ¬((conv3dOutTmp conv2d signals filters bh Hout Wout).d1
          < (conv3dOutTmp conv2d signals filters bh Hout Wout).d3) from by
        show ¬(signals.d1 < filters.d1)
        omega)]
      rfl
    · rw [if_neg h0]
      unfold diagSumTime
      rw [if_neg (show ¬((padTime (conv3dOutTmp conv2d signals filters bh Hout Wout) tpad).d1
          < (padTime (conv3dOutTmp conv2d signals filters bh Hout Wout) tpad).d3) from by
        show ¬(signals.d1 + 2 * tpad < filters.d1)
        omega)]
      rfl

theorem conv3d_channel_mismatch_no_error_witness :
    sigMis.d2 ≠ filtMis.d2 ∧
    exOk (conv3d conv2dW sigMis filtMis BM.full BM.valid BM.valid) = true :=
  ⟨by decide, conv3d_channel_mismatch_no_error conv2dW sigMis filtMis BM.full BM.valid BM.valid
    (by decide) rfl (Or.inl rfl) (Or.inr (Or.inl rfl)) (by decide) (by decide)⟩

/-- C7 counterexample: channel counts 2 (signals) and 3 (filters) differ,
yet `conv3d` produces an output rather than raising any error. -/
theorem conv3d_channel_mismatch_counterexample :
    sigMis.d2 ≠ filtMis.d2 ∧
    exOk (conv3d conv2dW sigMis filtMis BM.valid BM.valid BM.valid) = true :=
  ⟨by decide, rfl⟩

/-- C8 (code bug): on every even-length input, the `half` slicing bound
`M / 2` is a Python 3 true division, hence a float, and the slice raises
`TypeError` instead of returning the first `M/2` rows (resp. columns) that
the docstring promises.  Stated for any external transform result with an
even extent along the chosen axis. -/
theorem fft_half_even_raises_typeerror {α : Type} (inverse : Bool)
    (fftExt : Bool → PyMat α → Nat → Int → Except PyErr (PyMat α))
    (frames : PyMat α) (n : Nat) (m : PyMat α) :
    (fftExt inverse frames n 0 = .ok m → m.rows % 2 = 0 →
      fftPerform true inverse fftExt frames n 0 = .error .typeError) ∧
    (fftExt inverse frames n 1 = .ok m → m.cols % 2 = 0 →
      fftPerform true inverse fftExt frames n 1 = .error .typeError) := by
  constructor
  · intro hext heven
    unfold fftPerform
    rw [hext]
    show (if m.rows % 2 ≠ 0 then (.error .valueError : Except PyErr (PyMat α))
      else sliceRowsTo m (pyTrueDiv (m.rows : Int) 2)) = .error .typeError
    rw [if_neg (show ¬(m.rows % 2 ≠ 0) by omega)]
    rfl
  · intro hext heven
    unfold fftPerform
    rw [hext]
    show (if m.cols % 2 ≠ 0 then (.error .valueError : Except PyErr (PyMat α))
      else sliceColsTo m (pyTrueDiv (m.cols : Int) 2)) = .error .typeError
    rw [if_neg (show ¬(m.cols % 2 ≠ 0) by omega)]
    rfl

theorem fft_half_even_raises_typeerror_witness :
    (stubFft false framesEx 2 0 = .ok mEx ∧ mEx.rows % 2 = 0) ∧
    fftPerform true false stubFft framesEx 2 0 = .error .typeError :=
  ⟨⟨rfl, rfl⟩,
    (fft_half_even_raises_typeerror false stubFft framesEx 2 mEx).1 rfl rfl⟩

/-- C9 (amended): the eager complex-input check of `make_node` raises
`TypeError`; in the `half` path of `perform`, an odd extent along axis 0
or 1 raises `ValueError` and any axis the external transform accepts other
than 0 and 1 raises `NotImplementedError`; without `half` the axis is not
validated by this code at all — the external transform result is returned
unchanged (so e.g. axis -1 produces a spectrum). -/
theorem fft_typed_failures {α : Type} (inverse : Bool)
    (fftExt : Bool → PyMat α → Nat → Int → Except PyErr (PyMat α))
    (frames : PyMat α) (n : Nat) (axis : Int) (m : PyMat α) (dtype : DType) :
    (dtype.isComplex = true → fftMakeNode true dtype = .error .typeError) ∧
    (fftExt inverse frames n axis = .ok m → axis ≠ 0 → axis ≠ 1 →
      fftPerform true inverse fftExt frames n axis = .error .notImplementedError) ∧
    (fftExt inverse frames n 0 = .ok m → m.rows % 2 = 1 →
      fftPerform true inverse fftExt frames n 0 = .error .valueError) ∧
    (fftExt inverse frames n 1 = .ok m → m.cols % 2 = 1 →
      fftPerform true inverse fftExt frames n 1 = .error .valueError) ∧
    (fftPerform false inverse fftExt frames n axis = fftExt inverse frames n axis) := by
  refine ⟨?_, ?_, ?_, ?_, ?_⟩
  · intro h
    unfold fftMakeNode
    rw [h]
    rfl
  · intro hext h0 h1
    unfold fftPerform
    rw [hext]
    show (if axis = 0 then
        if m.rows % 2 ≠ 0 then (.error .valueError : Except PyErr (PyMat α))
        else sliceRowsTo m (pyTrueDiv (m.rows : Int) 2)
      else if axis = 1 then
        if m.cols % 2 ≠ 0 then .error .valueError
        else sliceColsTo m (pyTrueDiv (m.cols : Int) 2)
      else .error .notImplementedError) = .error .notImplementedError
    rw [if_neg h0, if_neg h1]
  · intro hext hodd
    unfold fftPerform
    rw [hext]
    show (if m.rows % 2 ≠ 0 then (.error .valueError : Except PyErr (PyMat α))
      else sliceRowsTo m (pyTrueDiv (m.rows : Int) 2)) = .error .valueError
    rw [if_pos (show m.rows % 2 ≠ 0 by omega)]
  · intro hext hodd
    unfold fftPerform
    rw [hext]
    show (if m.cols % 2 ≠ 0 then (.error .valueError : Except PyErr (PyMat α))
      else sliceColsTo m (pyTrueDiv (m.cols : Int) 2)) = .error .valueError
    rw [if_pos (show m.cols % 2 ≠ 0 by omega)]
  · cases h : fftExt inverse frames n axis with
    | error e =>
      unfold fftPerform
      rw [h]
    | ok m2 =>
      unfold fftPerform
      rw [h]
      rfl

theorem fft_typed_failures_witness :
    ((DType.complex128.isComplex = true ∧ fftMakeNode true DType.complex128 = .error .typeError) ∧
     (stubFft false framesOdd 3 0 = .ok mOdd ∧ mOdd.rows % 2 = 1)) ∧
    fftPerform true false stubFft framesOdd 3 0 = .error .valueError ∧
    fftPerform true false stubFft framesEx 2 5 = .error .notImplementedError ∧
    fftPerform false false stubFft framesEx 2 (-1) = stubFft false framesEx 2 (-1) :=
  ⟨⟨⟨rfl, (fft_typed_failures false stubFft framesOdd 3 0 mOdd DType.complex128).1 rfl⟩,
      ⟨rfl, rfl⟩⟩,
    (fft_typed_failures false stubFft framesOdd 3 0 mOdd DType.complex128).2.2.1 rfl rfl,
    (fft_typed_failures false stubFft framesEx 2 5 mAx5 DType.complex128).2.1 rfl
      (by decide) (by decide),
    (fft_typed_failures false stubFft framesEx 2 (-1) mAx5 DType.complex128).2.2.2.2⟩

/-- C9 counterexample: without `half`, axis -1 (not 0 or 1) is passed
through unchecked and a spectrum is produced — the claim that any axis
other than 0 or 1 aborts with a typed failure is false for the non-half
ops. -/
theorem fft_axis_unchecked_counterexample :
    exOk (fftPerform false false stubFft framesEx 2 (-1)) = true := rfl
